import Mathlib

/-!
Shallow embedding of `src/lib/agent-architecture/agents/general-agent.ts`
(the `GeneralAgent` class of the AI-Decision-Maker-Finder repository),
together with theorems settling the frozen claims about it.

JavaScript strings are modelled as Lean `String`; JS string truthiness
(`""` and `undefined`/`null` are falsy) is modelled explicitly on
`Option String`.  The asynchronous collaborators (search, scrape,
extractStructuredData) are modelled as oracle functions returning
`Except String _`; a thrown exception is the `.error` case.  `execute`
additionally returns the list of collaborator calls it issued, so that
"zero external calls" claims are statable.
-/

namespace GeneralAgent

/-! ## String primitives (models of the JS string operations used) -/

/-- Prefix test on character lists: `isPrefixL pat l` models that `l`
starts with `pat`. -/
def isPrefixL : List Char → List Char → Bool
  | [], _ => true
  | _ :: _, [] => false
  | c :: cs, d :: ds => c = d && isPrefixL cs ds

/-- Substring test on character lists; `hasSubL pat l` models
`l.includes(pat)` of JavaScript. -/
def hasSubL (pat : List Char) : List Char → Bool
  | [] => isPrefixL pat []
  | c :: cs => isPrefixL pat (c :: cs) || hasSubL pat cs

/-- Model of JavaScript `s.includes(pat)`. -/
def hasSubstr (s pat : String) : Bool := hasSubL pat.data s.data

/-- Model of JavaScript `s.toLowerCase()` (ASCII case folding). -/
def lowerStr (s : String) : String := String.mk (s.data.map Char.toLower)

/-- Split a character list on a single separator character, keeping empty
segments; models JavaScript `s.split(sep)`. -/
def splitOnChar (sep : Char) : List Char → List (List Char)
  | [] => [[]]
  | c :: cs =>
    let r := splitOnChar sep cs
    if c = sep then [] :: r
    else
      match r with
      | [] => [[c]]
      | h :: t => (c :: h) :: t

/-- Split a character list at the first occurrence of `pat`, returning the
part before and the part after; `none` when `pat` does not occur. -/
def splitOnceL (pat : List Char) : List Char → Option (List Char × List Char)
  | [] => if isPrefixL pat [] then some ([], []) else none
  | c :: cs =>
    if isPrefixL pat (c :: cs) then some ([], (c :: cs).drop pat.length)
    else (splitOnceL pat cs).map (fun p => (c :: p.1, p.2))

/-- Model of JavaScript `s.replace(/\s+/g, "-")`: every maximal run of
whitespace characters becomes a single hyphen. -/
def collapseWs : List Char → List Char
  | [] => []
  | c :: cs =>
    if c.isWhitespace then '-' :: collapseWs (cs.dropWhile Char.isWhitespace)
    else c :: collapseWs cs
  termination_by l => l.length
  decreasing_by
    · exact Nat.lt_succ_of_le (List.Sublist.length_le (List.dropWhile_sublist _))
    · exact Nat.lt_succ_self _

/-- JavaScript word character (`\w`): letters, digits, underscore. -/
def isWordChar (c : Char) : Bool := c.isAlphanum || c = '_'

/-! ## JS truthiness on optional strings -/

/-- Truthiness of a JS value that is a string or `undefined`/`null`:
only a non-empty string is truthy. -/
def truthy : Option String → Bool
  | some s => !s.isEmpty
  | none => false

/-- Model of the JS `a || b` expression on string-or-undefined values:
the first operand if truthy, otherwise the second operand. -/
def jsOr (a b : Option String) : Option String := if truthy a then a else b

/-- Model of JS string interpolation `${v}` of a string-or-undefined value:
`undefined` prints as "undefined". -/
def optStr : Option String → String
  | some s => s
  | none => "undefined"

/-- Model of the JS `v || d` expression used in string position: the value
if truthy, otherwise the default string `d`. -/
def jsOrStr (o : Option String) (d : String) : String :=
  if truthy o then optStr o else d

/-! ## Data model

`EnrichmentField` and `EnrichmentResult` are imported by the source from
`../core/types`, which is not under `src/`.  Modelled from the spec:
a Field is `{name: string, description: string}` and an EnrichmentResult
carries a `value` retained only when truthy. -/

/-- Modelled from the spec: a requested field, `{name, description}`
(imported by the source from `../core/types`, not in `src/`). -/
structure EnrichmentField where
  name : String
  description : String
deriving DecidableEq

/-- A raw search / scrape evidence record (interface `SearchResult`). -/
structure SearchResult where
  url : String
  title : Option String
  markdown : Option String
  content : Option String
deriving DecidableEq

/-- Result of the scrape collaborator (interface `ScrapeResult`). -/
structure ScrapeResult where
  success : Bool
  markdown : Option String
  html : Option String
deriving DecidableEq

/-- Modelled from the spec: the per-field result returned by the external
extraction engine; only its `value` (truthy check) matters here
(imported by the source from `../core/types`, not in `src/`). -/
structure EnrichmentResult where
  value : String
deriving DecidableEq

/-- Caller context (interface `GeneralAgentContext`).
`discoveredCompanyName` models `context.discoveredData?.companyName` and
`companyDomain` / `companyNameGuess` model the fields of
`context.emailContext`. -/
structure GeneralAgentContext where
  companyName : Option String
  discoveredCompanyName : Option String
  companyDomain : Option String
  companyNameGuess : Option String
deriving DecidableEq

/-- Options passed to the search collaborator
(`{ limit, scrapeOptions: { formats } }`). -/
structure SearchOptions where
  limit : Nat
  formats : List String
deriving DecidableEq

/-- Context object handed to the external extraction engine.  The source
builds an object literal with these fields and then spreads the caller
context on top; the spread is modelled by carrying the caller context
verbatim in `callerContext`. -/
structure EnrichmentContext where
  companyName : Option String
  companyDomain : Option String
  targetDomain : Option String
  companyLinkedInUrl : Option String
  instruction : String
  callerContext : GeneralAgentContext

/-- The three external collaborators (interface `GeneralAgentTools`),
modelled as oracles; `.error` models a rejected promise / thrown error. -/
structure GeneralAgentTools where
  search : String → SearchOptions → Except String (List SearchResult)
  scrape : String → Except String ScrapeResult
  extractStructuredData :
    String → List EnrichmentField → EnrichmentContext →
      Except String (List (String × EnrichmentResult))

/-- One issued collaborator call, recorded for call-counting claims. -/
inductive AgentCall where
  | search (query : String) (limit : Nat)
  | scrape (url : String)
  | extract (content : String)
deriving DecidableEq

/-! ## Field classifier (source lines 299–346) -/

/-- Role vocabulary of `isExecutiveField` (source line 307). -/
def executiveTitles : List String :=
  ["ceo", "cto", "cfo", "coo", "cmo", "cpo", "chief", "founder",
   "president", "director"]

/-- Model of `isExecutiveField` (source lines 303–310). -/
def isExecutiveField (f : EnrichmentField) : Bool :=
  let name := lowerStr f.name
  let desc := lowerStr f.description
  executiveTitles.any (fun t => hasSubstr name t || hasSubstr desc t)

/-- Model of `hasExecutiveFields` (source lines 299–301). -/
def hasExecutiveFields (fields : List EnrichmentField) : Bool :=
  fields.any isExecutiveField

/-- Model of `extractTitle` (source lines 312–327): ordered if-chain
mapping a field to a canonical title, falling back to the field name. -/
def extractTitle (f : EnrichmentField) : String :=
  let name := lowerStr f.name
  let desc := lowerStr f.description
  if hasSubstr name "ceo" || hasSubstr desc "chief executive" then "CEO"
  else if hasSubstr name "cto" || hasSubstr desc "chief technology" then "CTO"
  else if hasSubstr name "cfo" || hasSubstr desc "chief financial" then "CFO"
  else if hasSubstr name "coo" || hasSubstr desc "chief operating" then "COO"
  else if hasSubstr name "cmo" || hasSubstr desc "chief marketing" then "CMO"
  else if hasSubstr name "cpo" || hasSubstr desc "chief product" then "CPO"
  else if hasSubstr name "founder" then "founder"
  else if hasSubstr name "president" then "president"
  else f.name

/-- Stop words excluded from description key phrases (source line 340). -/
def stopWords : List String := ["this", "that", "what", "when", "where", "which"]

/-- Key phrases of a description (source lines 336–340): lower-case,
replace non-word characters by whitespace, split on whitespace runs,
keep words longer than 3 characters that are not stop words. -/
def keyPhrases (desc : String) : List String :=
  let cleaned := (lowerStr desc).data.map (fun c => if isWordChar c then c else ' ')
  (((splitOnChar ' ' cleaned).filter (fun w => w ≠ [])).map String.mk).filter
    (fun w => w.length > 3 && !(stopWords.contains w))

/-- Model of `getSearchTermsForField` (source lines 329–346). -/
def getSearchTermsForField (f : EnrichmentField) : String :=
  let terms := [f.name]
  let terms := if f.description ≠ "" then terms ++ (keyPhrases f.description).take 3
               else terms
  String.intercalate " " terms

/-! ## URL helpers (source lines 455–470) -/

/-- Modelled abstraction of the WHATWG `new URL` parser, reduced to what
`extractLinkedInCompanyName` consumes: for an absolute URL of the shape
`scheme://host[/path]` it returns the pathname (leading slash included,
`"/"` when the path is empty); any other string fails to parse (`none`),
modelling the exception thrown by `new URL`. -/
def parseURL (s : String) : Option String :=
  match splitOnceL "://".data s.data with
  | none => none
  | some (scheme, rest) =>
    if scheme = [] then none
    else
      let host := rest.takeWhile (fun c => c ≠ '/')
      if host = [] then none
      else
        let path := rest.drop host.length
        some (String.mk (if path = [] then ['/'] else path))

/-- Model of `extractLinkedInCompanyName` (source lines 456–470): parse
the URL, split the pathname on `/` dropping empty segments, and when the
first segment is `company` followed by a (truthy) segment, return that
segment with hyphens replaced by spaces; otherwise (including a parse
failure, caught) return the empty string. -/
def extractLinkedInCompanyName (linkedinUrl : String) : String :=
  match parseURL linkedinUrl with
  | none => ""
  | some pathname =>
    let pathParts := (splitOnChar '/' pathname.data).filter (fun p => p.length > 0)
    match pathParts with
    | p0 :: p1 :: _ =>
      if p0 = "company".data && !p1.isEmpty then
        String.mk (p1.map (fun c => if c = '-' then ' ' else c))
      else ""
    | _ => ""

/-! ## Query synthesizer (source lines 396–453) -/

/-- Executive subset of the fields (source line 404). -/
def executiveFields (fields : List EnrichmentField) : List EnrichmentField :=
  fields.filter isExecutiveField

/-- Non-executive subset of the fields (source line 405). -/
def otherFields (fields : List EnrichmentField) : List EnrichmentField :=
  fields.filter (fun f => !isExecutiveField f)

/-- Canonical titles of the executive fields, dropping falsy (empty)
titles (source line 408, `.filter(Boolean)`). -/
def execTitles (fields : List EnrichmentField) : List String :=
  ((executiveFields fields).map extractTitle).filter (fun t => !t.isEmpty)

/-- Model of `buildLinkedInFirstQueries` (source lines 397–453). -/
def buildLinkedInFirstQueries (fields : List EnrichmentField)
    (companyName companyDomain companyLinkedInUrl : Option String) :
    List String :=
  let execF := executiveFields fields
  let othF := otherFields fields
  let execQueries : List String :=
    if execF.length > 0 then
      let titles := execTitles fields
      (if truthy companyLinkedInUrl then
        let linkedinCompanyName := extractLinkedInCompanyName (optStr companyLinkedInUrl)
        ["site:linkedin.com/in \"" ++ linkedinCompanyName ++ "\" " ++
           String.intercalate " OR " titles,
         "site:linkedin.com/in \"" ++ optStr companyName ++ "\" " ++
           String.intercalate " OR " titles]
       else []) ++
      (if truthy companyName then
        (titles.map (fun title =>
          "site:linkedin.com/in \"" ++ title ++ "\" \"" ++ optStr companyName ++
            "\" current")) ++
        ["site:linkedin.com/in \"" ++ optStr companyName ++ "\" leadership team",
         "site:linkedin.com/in \"" ++ optStr companyName ++ "\" executives"]
       else []) ++
      (if truthy companyDomain then
        ["site:" ++ optStr companyDomain ++ " team leadership about executives",
         "site:" ++ optStr companyDomain ++ " about-us"]
       else []) ++
      (if truthy companyName then
        ["\"" ++ optStr companyName ++ "\" " ++ String.intercalate " " titles ++
           " 2025"]
       else [])
    else []
  let otherQueries : List String :=
    othF.flatMap (fun f =>
      let fieldTerms := getSearchTermsForField f
      (if truthy companyName then
        ["\"" ++ optStr companyName ++ "\" " ++ fieldTerms]
       else []) ++
      (if truthy companyDomain then
        ["site:" ++ optStr companyDomain ++ " " ++ fieldTerms]
       else []))
  execQueries ++ otherQueries

/-- Model of the legacy `buildSearchQueries` (source lines 241–297), which
is not called by `execute` but documents that the recency marker there is
`new Date().getFullYear()` (modelled by the `currentYear` parameter),
while `buildLinkedInFirstQueries` hardcodes the literal `2025`. -/
def buildSearchQueries (currentYear : Nat) (fields : List EnrichmentField)
    (companyName companyDomain : Option String) : List String :=
  let execF := executiveFields fields
  let othF := otherFields fields
  let execQueries : List String :=
    if execF.length > 0 then
      let titles := execTitles fields
      (if truthy companyName then
        ["site:linkedin.com/company \"" ++ optStr companyName ++ "\" " ++
           String.intercalate " OR " titles,
         "site:linkedin.com/in \"" ++ optStr companyName ++ "\" " ++
           String.intercalate " OR " titles] ++
        (titles.map (fun title =>
          "site:linkedin.com/in \"" ++ title ++ "\" \"" ++ optStr companyName ++ "\"")) ++
        ["site:linkedin.com/in \"" ++ optStr companyName ++ "\" leadership team executives"]
       else []) ++
      (if truthy companyDomain then
        ["site:" ++ optStr companyDomain ++ " team leadership about executives",
         "site:" ++ optStr companyDomain ++ " about-us team",
         "site:" ++ optStr companyDomain ++ " leadership"]
       else []) ++
      (if truthy companyName then
        ["\"" ++ optStr companyName ++ "\" " ++ String.intercalate " " titles ++
           " current " ++ toString currentYear]
       else [])
    else []
  let otherQueries : List String :=
    othF.flatMap (fun f =>
      let fieldTerms := getSearchTermsForField f
      (if truthy companyName then
        ["\"" ++ optStr companyName ++ "\" " ++ fieldTerms]
       else []) ++
      (if truthy companyDomain then
        ["site:" ++ optStr companyDomain ++ " " ++ fieldTerms]
       else []))
  let newsQueries : List String :=
    if truthy companyName && fields.length > 0 then
      ["\"" ++ optStr companyName ++ "\" news announcement " ++ toString currentYear]
    else []
  execQueries ++ otherQueries ++ newsQueries

/-! ## Evidence ranker/merger (source lines 134–169) -/

/-- LinkedIn test used by the sort comparator (source lines 136–137):
the URL contains `linkedin.com/in` or `linkedin.com/company`. -/
def isLinkedInUrl (u : String) : Bool :=
  hasSubstr u "linkedin.com/in" || hasSubstr u "linkedin.com/company"

/-- Company-site test used by the sort comparator (source lines 143–144):
the domain is truthy and the URL contains it. -/
def isCompanySite (d : Option String) (u : String) : Bool :=
  match d with
  | some dd => !dd.isEmpty && hasSubstr u dd
  | none => false

/-- Rank key of a URL under the comparator of source lines 135–150:
the comparator orders lexicographically by (not LinkedIn, not company
site), i.e. by this numeric key; ties return 0, so `Array.sort` (stable
since ES2019) computes the stable sort by this key. -/
def rankKeyU (d : Option String) (u : String) : Nat :=
  (if isLinkedInUrl u then 0 else 2) + (if isCompanySite d u then 0 else 1)

/-- Rank key of an evidence record. -/
def rankKey (d : Option String) (r : SearchResult) : Nat := rankKeyU d r.url

/-- Stable insertion of `x` into a list: before the first element whose
key is not smaller. -/
def insertK (k : SearchResult → Nat) (x : SearchResult) :
    List SearchResult → List SearchResult
  | [] => [x]
  | y :: ys => if k x ≤ k y then x :: y :: ys else y :: insertK k x ys

/-- Stable sort by a numeric key; models `Array.prototype.sort` with the
comparator of source lines 135–150 (stable, consistent comparator). -/
def sortK (k : SearchResult → Nat) : List SearchResult → List SearchResult
  | [] => []
  | x :: xs => insertK k x (sortK k xs)

/-- Insert-or-update for the JS `Map` built on source lines 153–155:
updating an existing key keeps its position, inserting appends. -/
def upsert : List (String × SearchResult) → String → SearchResult →
    List (String × SearchResult)
  | [], u, v => [(u, v)]
  | (k, w) :: rest, u, v =>
    if k = u then (k, v) :: rest else (k, w) :: upsert rest u v

/-- Folding a record list into the JS `Map` (insertion order of keys,
last-wins on values). -/
def runMap (m : List (String × SearchResult)) (rs : List SearchResult) :
    List (String × SearchResult) :=
  rs.foldl (fun m r => upsert m r.url r) m

/-- Model of `Array.from(new Map(rs.map(r => [r.url, r])).values())`
(source lines 153–155). -/
def dedupByUrl (rs : List SearchResult) : List SearchResult :=
  (runMap [] rs).map (·.2)

/-- Partition test of source lines 166–167: URL contains `linkedin.com`
(note: broader than the comparator's `isLinkedInUrl`). -/
def isLinkedInAny (r : SearchResult) : Bool := hasSubstr r.url "linkedin.com"

/-- Model of the full ranking pipeline of source lines 135–169: stable
sort by trust tier, dedup by URL, LinkedIn-first partition, truncation
to 10 records.  This list is what gets serialized for extraction. -/
def rankEvidence (d : Option String) (rs : List SearchResult) :
    List SearchResult :=
  let unique := dedupByUrl (sortK (rankKey d) rs)
  ((unique.filter isLinkedInAny) ++
   (unique.filter (fun r => !isLinkedInAny r))).take 10

/-! ## Anchor resolver (source lines 348–394) -/

/-- Model of `findCompanyLinkedInPage` (source lines 349–394).  Returns
the anchor URL (or `none`) together with the issued calls; a search
error is caught and treated as not-found. -/
def findCompanyLinkedInPage (t : GeneralAgentTools) (companyName : String)
    (_companyDomain : Option String) : Option String × List AgentCall :=
  let q := "site:linkedin.com/company \"" ++ companyName ++ "\""
  let calls := [AgentCall.search q 5]
  match t.search q ⟨5, ["markdown"]⟩ with
  | .error _ => (none, calls)
  | .ok searchResults =>
    if searchResults.isEmpty then (none, calls)
    else
      let target := String.mk (collapseWs (lowerStr companyName).data)
      let companyPages := searchResults.filter (fun r =>
        hasSubstr r.url "linkedin.com/company" &&
        hasSubstr (lowerStr r.url) target)
      match companyPages with
      | p :: _ => (some p.url, calls)
      | [] =>
        match searchResults.find? (fun r =>
            hasSubstr r.url "linkedin.com/company") with
        | some p => (some p.url, calls)
        | none => (none, calls)

/-! ## Evidence collector (source lines 84–132) -/

/-- Search options used by the per-query loop (source lines 89–92). -/
def searchOpts3 : SearchOptions := ⟨3, ["markdown"]⟩

/-- Model of the per-query search loop (source lines 86–101): each query
is searched with limit 3; a failing query is caught and contributes
nothing; non-empty result lists are concatenated in query order. -/
def runSearchQueries (t : GeneralAgentTools) (queries : List String) :
    List SearchResult × List AgentCall :=
  queries.foldl
    (fun acc q =>
      match t.search q searchOpts3 with
      | .ok rs =>
        (if rs.length > 0 then acc.1 ++ rs else acc.1,
         acc.2 ++ [AgentCall.search q 3])
      | .error _ => (acc.1, acc.2 ++ [AgentCall.search q 3]))
    ([], [])

/-- The three direct company pages tried for executive evidence
(source lines 107–109), in order. -/
def leadershipUrls (d : String) : List String :=
  ["https://" ++ d ++ "/about", "https://" ++ d ++ "/team",
   "https://" ++ d ++ "/leadership"]

/-- Whether a scrape of `u` succeeds with truthy rendered markdown
(source line 114, `scraped.success && scraped.markdown`). -/
def scrapeOk (t : GeneralAgentTools) (u : String) : Bool :=
  match t.scrape u with
  | .ok sr => sr.success && truthy sr.markdown
  | .error _ => false

/-- The synthetic record appended on a successful direct-page scrape
(source lines 115–120). -/
def leadershipRecord (u : String) (md : Option String) : SearchResult :=
  ⟨u, some "Company Leadership Page", md, md⟩

/-- Scrape loop over a list of candidate URLs (source lines 111–128):
try each in order, catching per-URL failures, stopping at the first
scrape that succeeds with truthy markdown. -/
def scrapeGo (t : GeneralAgentTools) : List String →
    Option SearchResult × List AgentCall
  | [] => (none, [])
  | u :: us =>
    match t.scrape u with
    | .ok sr =>
      if sr.success && truthy sr.markdown then
        (some (leadershipRecord u sr.markdown), [AgentCall.scrape u])
      else
        let rest := scrapeGo t us
        (rest.1, AgentCall.scrape u :: rest.2)
    | .error _ =>
      let rest := scrapeGo t us
      (rest.1, AgentCall.scrape u :: rest.2)

/-- Model of the direct company-page scraping block (source lines
104–132), for a truthy domain `d`. -/
def scrapeCompanyPages (t : GeneralAgentTools) (d : String) :
    Option SearchResult × List AgentCall :=
  scrapeGo t (leadershipUrls d)

/-- Model of the whole evidence collector (source lines 84–132): the
search loop, plus — when the domain is truthy and executive fields are
requested — the direct-page scrape appended as one extra record. -/
def collectEvidence (t : GeneralAgentTools) (queries : List String)
    (companyDomain : Option String) (fields : List EnrichmentField) :
    List SearchResult × List AgentCall :=
  let sr := runSearchQueries t queries
  if truthy companyDomain && hasExecutiveFields fields then
    let ex := scrapeCompanyPages t (optStr companyDomain)
    (sr.1 ++ (match ex.1 with | some r => [r] | none => []), sr.2 ++ ex.2)
  else sr

/-! ## Extraction dispatcher and orchestration (source lines 40–239) -/

/-- The instruction template of the enrichment context (source lines
182–215), with JS interpolation semantics (`undefined` prints as
"undefined", `||` picks the first truthy operand). -/
def instructionText (companyName companyDomain companyLinkedInUrl :
    Option String) : String :=
  String.intercalate "\n"
    ["Extract the requested information about " ++
       optStr (jsOr companyName companyDomain) ++ ".",
     "",
     "        LINKEDIN-FIRST WORKFLOW: Company LinkedIn Page as Foundation",
     "",
     "        Phase 1: Company LinkedIn Page Analysis",
     "        - If company LinkedIn page URL is provided (" ++
       jsOrStr companyLinkedInUrl "Not found" ++
       "), use it as the authoritative source",
     "        - Company LinkedIn pages show current employees and their exact titles",
     "        - This is the most reliable source for current decision makers",
     "",
     "        Phase 2: Individual LinkedIn Profile Validation",
     "        - Look for LinkedIn profiles (linkedin.com/in) that show \"Current\" employment at " ++
       optStr companyName,
     "        - Extract current job titles, full names, and profile URLs",
     "        - Only include profiles that clearly show current employment",
     "",
     "        Phase 3: Cross-Referencing Strategy",
     "        - Cross-reference LinkedIn data with company website information",
     "        - If sources conflict, LinkedIn profiles with \"Current\" status take priority",
     "        - Verify that titles match exactly with requested roles",
     "",
     "        Executive Information Extraction Rules:",
     "        1. **CURRENT EMPLOYEES ONLY**: Only include people with \"Current\" status on LinkedIn",
     "        2. **EXACT TITLE MATCH**: CEO must be \"CEO\" or \"Chief Executive Officer\", etc.",
     "        3. **INCLUDE PROFILE URLS**: Always include LinkedIn profile URLs when found",
     "        4. **PRIORITIZE COMPANY-LINKEDIN**: People listed on company LinkedIn page are most reliable",
     "",
     "        For custom decision maker roles:",
     "        - Search LinkedIn profiles with exact role titles at " ++
       optStr companyName,
     "        - Verify current employment status",
     "        - Include role description and profile URL",
     "",
     "        Quality Assurance:",
     "        - If no current decision makers found, return \"No current decision makers found\"",
     "        - Do not guess or infer information",
     "        - Only include explicitly stated information with clear sources"]

/-- Serialization of one kept evidence record (source line 172):
URL, title (or the placeholder), markdown falling back to content. -/
def fmtRecord (r : SearchResult) : String :=
  "URL: " ++ r.url ++ "\nTitle: " ++ jsOrStr r.title "No title" ++
    "\nContent:\n" ++ jsOrStr r.markdown (jsOrStr r.content "")

/-- The combined evidence text (source lines 171–174). -/
def combinedContentOf (prioritized : List SearchResult) : String :=
  String.intercalate "\n\n---\n\n"
    ((prioritized.map fmtRecord).filter (fun s => s ≠ ""))

/-- Company name resolution of source lines 46–48:
`context.companyName || context.discoveredData?.companyName ||
context.emailContext?.companyNameGuess`. -/
def resolveCompanyName (ctx : GeneralAgentContext) : Option String :=
  jsOr ctx.companyName (jsOr ctx.discoveredCompanyName ctx.companyNameGuess)

/-- Model of the `try` block of `execute` (source lines 63–233): anchor
resolution, query synthesis, evidence collection, ranking, and the
extraction call.  Returns the outcome (`.error` exactly when an error
escapes the local recovery boundaries, i.e. from the extraction engine)
together with the collaborator calls issued. -/
def executeTry (t : GeneralAgentTools) (ctx : GeneralAgentContext)
    (fields : List EnrichmentField) :
    Except String (List (String × EnrichmentResult)) × List AgentCall :=
  let companyName := resolveCompanyName ctx
  let companyDomain := ctx.companyDomain
  let (companyLinkedInUrl, tr1) :=
    if truthy companyName then
      findCompanyLinkedInPage t (optStr companyName) companyDomain
    else (none, [])
  let searchQueries :=
    buildLinkedInFirstQueries fields companyName companyDomain companyLinkedInUrl
  let (allSearchResults, tr2) := collectEvidence t searchQueries companyDomain fields
  let unique := dedupByUrl (sortK (rankKey companyDomain) allSearchResults)
  if unique.isEmpty then (.ok [], tr1 ++ tr2)
  else
    let prioritized :=
      ((unique.filter isLinkedInAny) ++
       (unique.filter (fun r => !isLinkedInAny r))).take 10
    let combinedContent := combinedContentOf prioritized
    let enrichmentContext : EnrichmentContext :=
      ⟨companyName, companyDomain, companyDomain, companyLinkedInUrl,
       instructionText companyName companyDomain companyLinkedInUrl, ctx⟩
    match t.extractStructuredData combinedContent fields enrichmentContext with
    | .ok enrichmentResults =>
      (.ok (enrichmentResults.filter (fun p => !p.2.value.isEmpty)),
       tr1 ++ tr2 ++ [AgentCall.extract combinedContent])
    | .error e => (.error e, tr1 ++ tr2 ++ [AgentCall.extract combinedContent])

/-- Model of `GeneralAgent.execute` (source lines 40–239): short-circuit
when neither company name nor domain is truthy; otherwise run the
pipeline, catching any escaped error at the top and returning the
partial results mapping (empty, since the mapping is only populated
after the last fallible call).  Also returns the calls issued. -/
def execute (t : GeneralAgentTools) (ctx : GeneralAgentContext)
    (fields : List EnrichmentField) :
    List (String × EnrichmentResult) × List AgentCall :=
  let companyName := resolveCompanyName ctx
  let companyDomain := ctx.companyDomain
  if !truthy companyName && !truthy companyDomain then ([], [])
  else
    match executeTry t ctx fields with
    | (.ok m, tr) => (m, tr)
    | (.error _, tr) => ([], tr)

/-! ## Proof-support definitions -/

/-- Association-list lookup on the JS-`Map` model. -/
def lookupA : List (String × SearchResult) → String → Option SearchResult
  | [], _ => none
  | (k, w) :: rest, u => if k = u then some w else lookupA rest u

/-- First-occurrence key order of the JS `Map`: `keysAfter ks us` is `ks`
extended by each element of `us` not already present, in order of first
occurrence. -/
def keysAfter (ks : List String) : List String → List String
  | [] => ks
  | u :: us => keysAfter (if u ∈ ks then ks else ks ++ [u]) us

/-- The last record of the list whose `url` is `w` (the record whose
content survives the JS `Map` deduplication). -/
def lastWith (w : String) : List SearchResult → Option SearchResult
  | [] => none
  | r :: rs =>
    match lastWith w rs with
    | some x => some x
    | none => if r.url = w then some r else none

/-- Records of the list whose rank key is `i`. -/
def keyBlock (k : SearchResult → Nat) (i : Nat) (l : List SearchResult) :
    List SearchResult :=
  l.filter (fun r => k r == i)

/-- Records contributed by one search query: the query's results on
success, nothing on a caught failure. -/
def searchContribution (t : GeneralAgentTools) (q : String) :
    List SearchResult :=
  match t.search q searchOpts3 with
  | .ok rs => if rs.length > 0 then rs else []
  | .error _ => []

/-- One canonicalization rule of `extractTitle`: fires when `namePat`
occurs in the lower-cased field name, or (when present) `descPat` occurs
in the lower-cased description; yields `label`. -/
structure TitleRule where
  namePat : String
  descPat : Option String
  label : String

/-- The ordered rule table implemented by `extractTitle` (source lines
317–324): the six chief-officer rules match the abbreviation in the name
or the spelled-out phrase in the description; `founder` and `president`
match the name only. -/
def titleRules : List TitleRule :=
  [⟨"ceo", some "chief executive", "CEO"⟩,
   ⟨"cto", some "chief technology", "CTO"⟩,
   ⟨"cfo", some "chief financial", "CFO"⟩,
   ⟨"coo", some "chief operating", "COO"⟩,
   ⟨"cmo", some "chief marketing", "CMO"⟩,
   ⟨"cpo", some "chief product", "CPO"⟩,
   ⟨"founder", none, "founder"⟩,
   ⟨"president", none, "president"⟩]

/-- Whether a rule fires on a field. -/
def ruleFires (f : EnrichmentField) (r : TitleRule) : Bool :=
  hasSubstr (lowerStr f.name) r.namePat ||
    (match r.descPat with
     | some p => hasSubstr (lowerStr f.description) p
     | none => false)

/-- First-match-wins evaluation of the rule table, falling back to the
field name. -/
def evalTitleRules (f : EnrichmentField) : String :=
  ((titleRules.find? (ruleFires f)).map (·.label)).getD f.name

/-- A record pair sharing a URL but differing in content (used to probe
the deduplication semantics). -/
def dupRec1 : SearchResult := ⟨"https://example.com/x", some "t1", some "m1", none⟩

/-- Second record with the same URL as `dupRec1` but different content. -/
def dupRec2 : SearchResult := ⟨"https://example.com/x", some "t2", some "m2", none⟩

/-- Concrete collaborators whose extraction engine throws, whose scrapes
throw, and whose searches return one non-LinkedIn record. -/
def toolsC2 : GeneralAgentTools :=
  ⟨fun _ _ => .ok [⟨"https://r.com", none, none, none⟩],
   fun _ => .error "no",
   fun _ _ _ => .error "boom"⟩

/-- Concrete collaborators for the collector witness: the query "bad"
fails, other queries return one record; the `/about` scrape throws and
every other scrape succeeds with markdown "md". -/
def toolsC9 : GeneralAgentTools :=
  ⟨fun q _ => if q = "bad" then .error "fail"
              else .ok [⟨"https://r.com", none, none, none⟩],
   fun u => if u = "https://acme.com/about" then .error "nope"
            else .ok ⟨true, some "md", none⟩,
   fun _ _ _ => .ok []⟩

/-- Concrete collaborators whose scrapes all throw. -/
def toolsC9b : GeneralAgentTools :=
  ⟨fun _ _ => .ok [⟨"https://r.com", none, none, none⟩],
   fun _ => .error "down",
   fun _ _ _ => .ok []⟩

/-! ## Substring lemmas -/

theorem isPrefixL_iff (p : List Char) : ∀ l, isPrefixL p l = true ↔ ∃ t, l = p ++ t := by
  induction p with
  | nil => intro l; simp [isPrefixL]
  | cons c cs ih =>
    intro l
    cases l with
    | nil => simp [isPrefixL]
    | cons d ds =>
      simp only [isPrefixL, Bool.and_eq_true, decide_eq_true_eq, ih,
        List.cons_append, List.cons.injEq]
      constructor
      · rintro ⟨rfl, t, rfl⟩; exact ⟨t, rfl, rfl⟩
      · rintro ⟨t, rfl, rfl⟩; exact ⟨rfl, t, rfl⟩

theorem hasSubL_iff (p : List Char) : ∀ l, hasSubL p l = true ↔ ∃ a b, l = a ++ p ++ b := by
  intro l
  induction l with
  | nil =>
    simp only [hasSubL, isPrefixL_iff]
    constructor
    · rintro ⟨t, ht⟩
      rcases List.append_eq_nil.mp ht.symm with ⟨rfl, rfl⟩
      exact ⟨[], [], rfl⟩
    · rintro ⟨a, b, hab⟩
      simp only [List.append_assoc] at hab
      rcases List.append_eq_nil.mp hab.symm with ⟨rfl, h2⟩
      rcases List.append_eq_nil.mp h2 with ⟨rfl, rfl⟩
      exact ⟨[], rfl⟩
  | cons c cs ih =>
    simp only [hasSubL, Bool.or_eq_true, isPrefixL_iff, ih]
    constructor
    · rintro (⟨t, ht⟩ | ⟨a, b, hab⟩)
      · exact ⟨[], t, by simpa using ht⟩
      · exact ⟨c :: a, b, by simp [hab]⟩
    · rintro ⟨a, b, hab⟩
      cases a with
      | nil => exact Or.inl ⟨b, by simpa using hab⟩
      | cons x xs =>
        simp only [List.cons_append, List.cons.injEq] at hab
        exact Or.inr ⟨xs, b, hab.2⟩

theorem hasSubL_of_append_left {p q l : List Char}
    (h : hasSubL (p ++ q) l = true) : hasSubL p l = true := by
  rcases (hasSubL_iff _ _).mp h with ⟨a, b, rfl⟩
  exact (hasSubL_iff _ _).mpr ⟨a, q ++ b, by simp⟩

theorem isLinkedInUrl_imp_any {u : String} (h : isLinkedInUrl u = true) :
    hasSubstr u "linkedin.com" = true := by
  rcases Bool.or_eq_true_iff.mp h with h' | h'
  · have hd : ("linkedin.com/in").data = ("linkedin.com").data ++ ("/in").data := by decide
    have := h'
    unfold hasSubstr at this ⊢
    rw [hd] at this
    exact hasSubL_of_append_left this
  · have hd : ("linkedin.com/company").data =
      ("linkedin.com").data ++ ("/company").data := by decide
    have := h'
    unfold hasSubstr at this ⊢
    rw [hd] at this
    exact hasSubL_of_append_left this

/-- Records of rank key 0 or 1 are LinkedIn records also in the broader
partition sense (`linkedin.com` substring). -/
theorem rankKeyU_le_one_imp_any {d : Option String} {u : String}
    (h : rankKeyU d u ≤ 1) : hasSubstr u "linkedin.com" = true := by
  by_cases hli : isLinkedInUrl u = true
  · exact isLinkedInUrl_imp_any hli
  · exfalso
    unfold rankKeyU at h
    rw [if_neg hli] at h
    by_cases hcs : isCompanySite d u = true
    · rw [if_pos hcs] at h; omega
    · rw [if_neg hcs] at h; omega

theorem rankKeyU_le_three (d : Option String) (u : String) : rankKeyU d u ≤ 3 := by
  unfold rankKeyU
  by_cases h1 : isLinkedInUrl u = true <;>
    by_cases h2 : isCompanySite d u = true <;>
      simp [h1, h2]

/-! ## Stable sort lemmas -/

theorem insertK_all_le {k : SearchResult → Nat} {x : SearchResult}
    {B : List SearchResult} (h : ∀ y ∈ B, k x ≤ k y) :
    insertK k x B = x :: B := by
  cases B with
  | nil => rfl
  | cons y ys => simp [insertK, h y (List.mem_cons_self y ys)]

theorem insertK_append_lt {k : SearchResult → Nat} {x : SearchResult}
    {A : List SearchResult} (B : List SearchResult)
    (h : ∀ y ∈ A, k y < k x) :
    insertK k x (A ++ B) = A ++ insertK k x B := by
  induction A with
  | nil => rfl
  | cons a as ih =>
    have ha : k a < k x := h a (List.mem_cons_self a as)
    have hne : ¬ (k x ≤ k a) := by omega
    show insertK k x (a :: (as ++ B)) = a :: (as ++ insertK k x B)
    simp only [insertK, if_neg hne]
    rw [ih (fun y hy => h y (List.mem_cons_of_mem a hy))]

theorem insertK_perm (k : SearchResult → Nat) (x : SearchResult)
    (l : List SearchResult) : List.Perm (insertK k x l) (x :: l) := by
  induction l with
  | nil => rfl
  | cons y ys ih =>
    unfold insertK
    split
    · rfl
    · exact (ih.cons y).trans (List.Perm.swap x y ys)

theorem sortK_perm (k : SearchResult → Nat) (l : List SearchResult) :
    List.Perm (sortK k l) l := by
  induction l with
  | nil => rfl
  | cons x xs ih => exact (insertK_perm k x (sortK k xs)).trans (ih.cons x)

theorem mem_keyBlock {k : SearchResult → Nat} {i : Nat}
    {l : List SearchResult} {y : SearchResult} (h : y ∈ keyBlock k i l) :
    k y = i := by
  have := (List.mem_filter.mp h).2
  simpa using this

theorem keyBlock_cons (k : SearchResult → Nat) (i : Nat) (x : SearchResult)
    (xs : List SearchResult) :
    keyBlock k i (x :: xs) =
      if k x = i then x :: keyBlock k i xs else keyBlock k i xs := by
  simp only [keyBlock, List.filter_cons]
  split <;> split <;> simp_all

theorem sortK_blocks (k : SearchResult → Nat) (hk : ∀ r, k r ≤ 3) :
    ∀ l, sortK k l =
      keyBlock k 0 l ++ keyBlock k 1 l ++ keyBlock k 2 l ++ keyBlock k 3 l := by
  intro l
  induction l with
  | nil => rfl
  | cons x xs ih =>
    have hb0 : ∀ y ∈ keyBlock k 0 xs, k y = 0 := fun y hy => mem_keyBlock hy
    have hb1 : ∀ y ∈ keyBlock k 1 xs, k y = 1 := fun y hy => mem_keyBlock hy
    have hb2 : ∀ y ∈ keyBlock k 2 xs, k y = 2 := fun y hy => mem_keyBlock hy
    have hb3 : ∀ y ∈ keyBlock k 3 xs, k y = 3 := fun y hy => mem_keyBlock hy
    have hx := hk x
    have hcase : k x = 0 ∨ k x = 1 ∨ k x = 2 ∨ k x = 3 := by omega
    show insertK k x (sortK k xs) = _
    rw [ih, List.append_assoc, List.append_assoc]
    rcases hcase with h0 | h1 | h2 | h3
    · have hall : ∀ y ∈ keyBlock k 0 xs ++
          (keyBlock k 1 xs ++ (keyBlock k 2 xs ++ keyBlock k 3 xs)), k x ≤ k y := by
        intro y _; omega
      rw [insertK_all_le hall]
      simp [keyBlock_cons, h0, List.append_assoc]
    · have hpre : ∀ y ∈ keyBlock k 0 xs, k y < k x := by
        intro y hy; have := hb0 y hy; omega
      have hsuf : ∀ y ∈ keyBlock k 1 xs ++ (keyBlock k 2 xs ++ keyBlock k 3 xs),
          k x ≤ k y := by
        intro y hy
        rcases List.mem_append.mp hy with hy | hy
        · have := hb1 y hy; omega
        · rcases List.mem_append.mp hy with hy | hy
          · have := hb2 y hy; omega
          · have := hb3 y hy; omega
      rw [insertK_append_lt _ hpre, insertK_all_le hsuf]
      simp [keyBlock_cons, h1, List.append_assoc]
    · have hpre0 : ∀ y ∈ keyBlock k 0 xs, k y < k x := by
        intro y hy; have := hb0 y hy; omega
      have hpre1 : ∀ y ∈ keyBlock k 1 xs, k y < k x := by
        intro y hy; have := hb1 y hy; omega
      have hsuf : ∀ y ∈ keyBlock k 2 xs ++ keyBlock k 3 xs, k x ≤ k y := by
        intro y hy
        rcases List.mem_append.mp hy with hy | hy
        · have := hb2 y hy; omega
        · have := hb3 y hy; omega
      rw [insertK_append_lt _ hpre0, insertK_append_lt _ hpre1,
        insertK_all_le hsuf]
      simp [keyBlock_cons, h2, List.append_assoc]
    · have hpre0 : ∀ y ∈ keyBlock k 0 xs, k y < k x := by
        intro y hy; have := hb0 y hy; omega
      have hpre1 : ∀ y ∈ keyBlock k 1 xs, k y < k x := by
        intro y hy; have := hb1 y hy; omega
      have hpre2 : ∀ y ∈ keyBlock k 2 xs, k y < k x := by
        intro y hy; have := hb2 y hy; omega
      have hsuf : ∀ y ∈ keyBlock k 3 xs, k x ≤ k y := by
        intro y hy; have := hb3 y hy; omega
      rw [insertK_append_lt _ hpre0, insertK_append_lt _ hpre1,
        insertK_append_lt _ hpre2, insertK_all_le hsuf]
      simp [keyBlock_cons, h3, List.append_assoc]

theorem insertK_pairwise {k : SearchResult → Nat} {x : SearchResult}
    {l : List SearchResult}
    (h : l.Pairwise (fun a b => k a ≤ k b)) :
    (insertK k x l).Pairwise (fun a b => k a ≤ k b) := by
  induction l with
  | nil => simp [insertK]
  | cons y ys ih =>
    rcases List.pairwise_cons.mp h with ⟨hy, hys⟩
    unfold insertK
    split
    · rename_i hxy
      refine List.pairwise_cons.mpr ⟨?_, h⟩
      intro z hz
      rcases List.mem_cons.mp hz with rfl | hz
      · exact hxy
      · exact le_trans hxy (hy z hz)
    · rename_i hxy
      refine List.pairwise_cons.mpr ⟨?_, ih hys⟩
      intro z hz
      have hz' : z ∈ x :: ys := (insertK_perm k x ys).mem_iff.mp hz
      rcases List.mem_cons.mp hz' with rfl | hz'
      · omega
      · exact hy z hz'

theorem sortK_pairwise (k : SearchResult → Nat) (l : List SearchResult) :
    (sortK k l).Pairwise (fun a b => k a ≤ k b) := by
  induction l with
  | nil => simp [sortK]
  | cons x xs ih => exact insertK_pairwise ih

theorem sortK_of_pairwise {k : SearchResult → Nat} {l : List SearchResult}
    (h : l.Pairwise (fun a b => k a ≤ k b)) : sortK k l = l := by
  induction l with
  | nil => rfl
  | cons x xs ih =>
    rcases List.pairwise_cons.mp h with ⟨hx, hxs⟩
    show insertK k x (sortK k xs) = x :: xs
    rw [ih hxs, insertK_all_le hx]

/-! ## Deduplication (JS Map) lemmas -/

theorem keys_upsert (m : List (String × SearchResult)) (u : String)
    (v : SearchResult) :
    (upsert m u v).map Prod.fst =
      if u ∈ m.map Prod.fst then m.map Prod.fst else m.map Prod.fst ++ [u] := by
  induction m with
  | nil => simp [upsert]
  | cons e rest ih =>
    obtain ⟨k, w⟩ := e
    by_cases hk : k = u
    · subst hk
      simp [upsert]
    · have hmem : (u ∈ k :: rest.map Prod.fst) ↔ u ∈ rest.map Prod.fst := by
        constructor
        · intro h
          rcases List.mem_cons.mp h with h | h
          · exact absurd h.symm hk
          · exact h
        · exact fun h => List.mem_cons_of_mem _ h
      by_cases hm : u ∈ rest.map Prod.fst
      · simp [upsert, if_neg hk, ih, hm, hmem]
      · simp [upsert, if_neg hk, ih, hm, hmem]

theorem mem_upsert {m : List (String × SearchResult)} {u : String}
    {v : SearchResult} {e : String × SearchResult} (h : e ∈ upsert m u v) :
    e ∈ m ∨ e = (u, v) := by
  induction m with
  | nil =>
    simp only [upsert, List.mem_singleton] at h
    exact Or.inr h
  | cons f rest ih =>
    obtain ⟨k, w⟩ := f
    by_cases hk : k = u
    · subst hk
      simp only [upsert, if_pos rfl] at h
      rcases List.mem_cons.mp h with h | h
      · exact Or.inr h
      · exact Or.inl (List.mem_cons_of_mem _ h)
    · simp only [upsert, if_neg hk] at h
      rcases List.mem_cons.mp h with h | h
      · exact Or.inl (by rw [h]; exact List.mem_cons_self _ _)
      · rcases ih h with h | h
        · exact Or.inl (List.mem_cons_of_mem _ h)
        · exact Or.inr h

theorem upsert_not_mem {m : List (String × SearchResult)} {u : String}
    (v : SearchResult) (h : u ∉ m.map Prod.fst) :
    upsert m u v = m ++ [(u, v)] := by
  induction m with
  | nil => rfl
  | cons e rest ih =>
    obtain ⟨k, w⟩ := e
    simp only [List.map_cons, List.mem_cons] at h
    push_neg at h
    have hk : ¬ (k = u) := fun hk => h.1 hk.symm
    simp only [upsert, if_neg hk, List.cons_append]
    rw [ih h.2]

theorem lookupA_upsert_self (m : List (String × SearchResult)) (u : String)
    (v : SearchResult) : lookupA (upsert m u v) u = some v := by
  induction m with
  | nil => simp [upsert, lookupA]
  | cons e rest ih =>
    obtain ⟨k, w⟩ := e
    by_cases hk : k = u
    · subst hk; simp [upsert, lookupA]
    · simp [upsert, lookupA, hk, ih]

theorem lookupA_upsert_other (m : List (String × SearchResult)) {u w : String}
    (v : SearchResult) (h : w ≠ u) :
    lookupA (upsert m u v) w = lookupA m w := by
  have hne : ¬ (u = w) := fun hh => h hh.symm
  induction m with
  | nil => simp [upsert, lookupA, hne]
  | cons e rest ih =>
    obtain ⟨k, x⟩ := e
    by_cases hk : k = u
    · subst hk
      simp [upsert, lookupA, hne]
    · simp [upsert, lookupA, hk, ih]

theorem lookupA_runMap (w : String) :
    ∀ (rs : List SearchResult) (m : List (String × SearchResult)),
      lookupA (runMap m rs) w =
        match lastWith w rs with
        | some r => some r
        | none => lookupA m w := by
  intro rs
  induction rs with
  | nil => intro m; rfl
  | cons r rs ih =>
    intro m
    show lookupA (runMap (upsert m r.url r) rs) w = _
    rw [ih (upsert m r.url r)]
    cases hlast : lastWith w rs with
    | some x => simp [lastWith, hlast]
    | none =>
      by_cases hw : r.url = w
      · subst hw
        simp [lastWith, hlast, lookupA_upsert_self]
      · simp [lastWith, hlast, hw, lookupA_upsert_other m r (fun h => hw h.symm)]

theorem lookupA_of_mem :
    ∀ {m : List (String × SearchResult)} {u : String} {v : SearchResult},
      (m.map Prod.fst).Nodup → (u, v) ∈ m → lookupA m u = some v := by
  intro m
  induction m with
  | nil => intro u v _ h; simp at h
  | cons e rest ih =>
    intro u v hnd h
    obtain ⟨k, w⟩ := e
    simp only [List.map_cons, List.nodup_cons] at hnd
    rcases List.mem_cons.mp h with heq | hmem
    · obtain ⟨hu, hv⟩ := Prod.mk.inj heq
      subst hu; subst hv
      simp [lookupA]
    · have hk : k ≠ u := by
        rintro rfl
        exact hnd.1 (List.mem_map.mpr ⟨(k, v), hmem, rfl⟩)
      simp only [lookupA, if_neg hk]
      exact ih hnd.2 hmem

theorem keys_runMap :
    ∀ (rs : List SearchResult) (m : List (String × SearchResult)),
      (runMap m rs).map Prod.fst =
        keysAfter (m.map Prod.fst) (rs.map (·.url)) := by
  intro rs
  induction rs with
  | nil => intro m; rfl
  | cons r rs ih =>
    intro m
    show (runMap (upsert m r.url r) rs).map Prod.fst = _
    rw [ih (upsert m r.url r), keys_upsert]
    show _ = keysAfter
      (if r.url ∈ m.map Prod.fst then m.map Prod.fst else m.map Prod.fst ++ [r.url])
      (rs.map (·.url))
    by_cases hm : r.url ∈ m.map Prod.fst
    · simp [hm]
    · simp [hm]

theorem keysAfter_spec :
    ∀ (us ks : List String), ∃ extra, keysAfter ks us = ks ++ extra ∧
      extra.Sublist us ∧ ∀ u ∈ extra, u ∉ ks := by
  intro us
  induction us with
  | nil => intro ks; exact ⟨[], by simp [keysAfter]⟩
  | cons u us ih =>
    intro ks
    by_cases hu : u ∈ ks
    · obtain ⟨extra, h1, h2, h3⟩ := ih ks
      exact ⟨extra, by simp [keysAfter, hu, h1], h2.cons u, h3⟩
    · obtain ⟨extra, h1, h2, h3⟩ := ih (ks ++ [u])
      refine ⟨u :: extra, ?_, h2.cons₂ u, ?_⟩
      · simp only [keysAfter, if_neg hu, h1, List.append_assoc,
          List.singleton_append]
      · intro x hx
        rcases List.mem_cons.mp hx with rfl | hx
        · exact hu
        · intro hks
          exact h3 x hx (List.mem_append.mpr (Or.inl hks))

theorem keysAfter_nodup :
    ∀ (us ks : List String), ks.Nodup → (keysAfter ks us).Nodup := by
  intro us
  induction us with
  | nil => intro ks h; exact h
  | cons u us ih =>
    intro ks hnd
    by_cases hu : u ∈ ks
    · simpa [keysAfter, hu] using ih ks hnd
    · have : (ks ++ [u]).Nodup := by
        simp [List.nodup_append, hnd, hu]
      simpa [keysAfter, hu] using ih (ks ++ [u]) this

theorem mem_keysAfter :
    ∀ (us ks : List String) (w : String),
      w ∈ keysAfter ks us ↔ w ∈ ks ∨ w ∈ us := by
  intro us
  induction us with
  | nil => intro ks w; simp [keysAfter]
  | cons u us ih =>
    intro ks w
    by_cases hu : u ∈ ks
    · rw [show keysAfter ks (u :: us) = keysAfter ks us by simp [keysAfter, hu],
        ih ks w]
      constructor
      · rintro (h | h)
        · exact Or.inl h
        · exact Or.inr (List.mem_cons_of_mem u h)
      · rintro (h | h)
        · exact Or.inl h
        · rcases List.mem_cons.mp h with rfl | h
          · exact Or.inl hu
          · exact Or.inr h
    · rw [show keysAfter ks (u :: us) = keysAfter (ks ++ [u]) us by
          simp [keysAfter, hu],
        ih (ks ++ [u]) w]
      simp only [List.mem_append, List.mem_singleton, List.mem_cons]
      tauto

theorem runMap_entry_url :
    ∀ (rs : List SearchResult) (m : List (String × SearchResult)),
      (∀ e ∈ m, e.1 = e.2.url) →
      ∀ e ∈ runMap m rs, e.1 = e.2.url := by
  intro rs
  induction rs with
  | nil => intro m hm e he; exact hm e he
  | cons r rs ih =>
    intro m hm e he
    refine ih (upsert m r.url r) ?_ e he
    intro f hf
    rcases mem_upsert hf with hf | rfl
    · exact hm f hf
    · rfl

theorem urls_dedupByUrl (rs : List SearchResult) :
    (dedupByUrl rs).map (·.url) = keysAfter [] (rs.map (·.url)) := by
  have h1 : (dedupByUrl rs).map (·.url) = (runMap [] rs).map Prod.fst := by
    unfold dedupByUrl
    rw [List.map_map]
    refine List.map_congr_left ?_
    intro e he
    exact (runMap_entry_url rs [] (by simp) e he).symm
  rw [h1, keys_runMap rs []]
  rfl

theorem urls_dedupByUrl_nodup (rs : List SearchResult) :
    ((dedupByUrl rs).map (·.url)).Nodup := by
  rw [urls_dedupByUrl]
  exact keysAfter_nodup _ [] List.nodup_nil

theorem lastWith_dedupByUrl {rs : List SearchResult} {r : SearchResult}
    (h : r ∈ dedupByUrl rs) : lastWith r.url rs = some r := by
  obtain ⟨e, he, hev⟩ := List.mem_map.mp h
  have hurl : e.1 = e.2.url := runMap_entry_url rs [] (by simp) e he
  have hnd : ((runMap [] rs).map Prod.fst).Nodup := by
    rw [keys_runMap rs []]
    exact keysAfter_nodup _ [] List.nodup_nil
  have hmem : (e.2.url, e.2) ∈ runMap [] rs := by
    have : e = (e.2.url, e.2) := by
      cases e; simp at hurl ⊢; exact hurl
    rwa [this] at he
  have hlook := lookupA_of_mem hnd hmem
  have hrun := lookupA_runMap e.2.url rs []
  rw [hlook] at hrun
  subst hev
  cases hlast : lastWith e.2.url rs with
  | some x =>
    rw [hlast] at hrun
    have hx : e.2 = x := by simpa using hrun
    rw [hx]
  | none =>
    rw [hlast] at hrun
    simp [lookupA] at hrun

theorem runMap_nodup_urls :
    ∀ (rs : List SearchResult) (m : List (String × SearchResult)),
      (∀ x ∈ rs, x.url ∉ m.map Prod.fst) → ((rs.map (·.url)).Nodup) →
      runMap m rs = m ++ rs.map (fun r => (r.url, r)) := by
  intro rs
  induction rs with
  | nil => intro m _ _; simp [runMap]
  | cons r rs ih =>
    intro m hnot hnd
    show runMap (upsert m r.url r) rs = _
    simp only [List.map_cons, List.nodup_cons] at hnd
    rw [upsert_not_mem r (hnot r (List.mem_cons_self r rs))]
    rw [ih (m ++ [(r.url, r)]) ?_ hnd.2]
    · simp
    · intro x hx
      simp only [List.map_append, List.mem_append, List.map_cons]
      push_neg
      constructor
      · exact hnot x (List.mem_cons_of_mem r hx)
      · simp only [List.map_nil, List.mem_singleton]
        intro heq
        exact hnd.1 (List.mem_map.mpr ⟨x, hx, heq⟩)

theorem dedupByUrl_of_nodup {rs : List SearchResult}
    (h : (rs.map (·.url)).Nodup) : dedupByUrl rs = rs := by
  unfold dedupByUrl
  rw [runMap_nodup_urls rs [] (by simp) h]
  rw [List.nil_append, List.map_map]
  show List.map (fun r => r) rs = rs
  simp

/-! ## Rank pipeline structure lemmas -/

theorem rank_shape (d : Option String) (rs : List SearchResult) :
    rankEvidence d rs =
      ((dedupByUrl (sortK (rankKey d) rs)).filter isLinkedInAny).take 10 ++
      ((dedupByUrl (sortK (rankKey d) rs)).filter
        (fun r => !isLinkedInAny r)).take
        (10 - ((dedupByUrl (sortK (rankKey d) rs)).filter
          isLinkedInAny).length) := by
  show ((dedupByUrl (sortK (rankKey d) rs)).filter isLinkedInAny ++
    (dedupByUrl (sortK (rankKey d) rs)).filter
      (fun r => !isLinkedInAny r)).take 10 = _
  exact List.take_append_eq_append_take

theorem dedup_sortK_pairwise (d : Option String) (rs : List SearchResult) :
    (dedupByUrl (sortK (rankKey d) rs)).Pairwise
      (fun a b => rankKey d a ≤ rankKey d b) := by
  have hs : (sortK (rankKey d) rs).Pairwise
      (fun a b => rankKey d a ≤ rankKey d b) := sortK_pairwise _ rs
  have hmap : ((sortK (rankKey d) rs).map (·.url)).Pairwise
      (fun a b => rankKeyU d a ≤ rankKeyU d b) := by
    rw [List.pairwise_map]
    exact hs
  have hsub : ((dedupByUrl (sortK (rankKey d) rs)).map (·.url)).Sublist
      ((sortK (rankKey d) rs).map (·.url)) := by
    rw [urls_dedupByUrl]
    obtain ⟨extra, h1, h2, _⟩ :=
      keysAfter_spec ((sortK (rankKey d) rs).map (·.url)) []
    rw [h1]
    simpa using h2
  have hdm := List.Pairwise.sublist hsub hmap
  rw [List.pairwise_map] at hdm
  exact hdm

theorem rank_nodup_urls (d : Option String) (rs : List SearchResult) :
    ((rankEvidence d rs).map (·.url)).Nodup := by
  rw [rank_shape d rs]
  have hnd := urls_dedupByUrl_nodup (sortK (rankKey d) rs)
  rw [List.map_append]
  have hsubA : (((dedupByUrl (sortK (rankKey d) rs)).filter
      isLinkedInAny).take 10).Sublist (dedupByUrl (sortK (rankKey d) rs)) :=
    (List.take_sublist _ _).trans (List.filter_sublist _)
  have hsubB : (((dedupByUrl (sortK (rankKey d) rs)).filter
      (fun r => !isLinkedInAny r)).take
        (10 - ((dedupByUrl (sortK (rankKey d) rs)).filter
          isLinkedInAny).length)).Sublist
      (dedupByUrl (sortK (rankKey d) rs)) :=
    (List.take_sublist _ _).trans (List.filter_sublist _)
  refine List.Nodup.append
    (List.Nodup.sublist (List.Sublist.map _ hsubA) hnd)
    (List.Nodup.sublist (List.Sublist.map _ hsubB) hnd) ?_
  intro w hw1 hw2
  obtain ⟨a, ha, haw⟩ := List.mem_map.mp hw1
  obtain ⟨b, hb, hbw⟩ := List.mem_map.mp hw2
  have haf := List.take_subset _ _ ha
  have hbf := List.take_subset _ _ hb
  have hpa : isLinkedInAny a = true := List.of_mem_filter haf
  have hpb := List.of_mem_filter hbf
  simp only [Bool.not_eq_true'] at hpb
  have hau : a ∈ dedupByUrl (sortK (rankKey d) rs) := List.mem_of_mem_filter haf
  have hbu : b ∈ dedupByUrl (sortK (rankKey d) rs) := List.mem_of_mem_filter hbf
  have hab : a = b :=
    List.inj_on_of_nodup_map hnd hau hbu (by rw [haw, hbw])
  rw [hab, hpb] at hpa
  simp at hpa

theorem rank_len_le (d : Option String) (rs : List SearchResult) :
    (rankEvidence d rs).length ≤ 10 := by
  show (((dedupByUrl (sortK (rankKey d) rs)).filter isLinkedInAny ++
    (dedupByUrl (sortK (rankKey d) rs)).filter
      (fun r => !isLinkedInAny r)).take 10).length ≤ 10
  exact List.length_take_le _ _

theorem rank_li_first (d : Option String) (rs : List SearchResult) :
    (rankEvidence d rs).Pairwise
      (fun a b => isLinkedInAny b = true → isLinkedInAny a = true) := by
  rw [rank_shape d rs]
  rw [List.pairwise_append]
  refine ⟨?_, ?_, ?_⟩
  · refine List.pairwise_of_forall_mem_list ?_
    intro a ha b _ _
    exact List.of_mem_filter (List.take_subset _ _ ha)
  · refine List.pairwise_of_forall_mem_list ?_
    intro a _ b hb hLI
    have := List.of_mem_filter (List.take_subset _ _ hb)
    rw [hLI] at this
    simp at this
  · intro a ha b _ _
    exact List.of_mem_filter (List.take_subset _ _ ha)

theorem rank_fixed (d : Option String) (A B : List SearchResult)
    (hA : ∀ a ∈ A, isLinkedInAny a = true)
    (hB : ∀ b ∈ B, isLinkedInAny b = false)
    (hsA : A.Pairwise (fun a b => rankKey d a ≤ rankKey d b))
    (hsB : B.Pairwise (fun a b => rankKey d a ≤ rankKey d b))
    (hnd : ((A ++ B).map (·.url)).Nodup)
    (hlen : (A ++ B).length ≤ 10) :
    rankEvidence d (A ++ B) = A ++ B := by
  have hk : ∀ r, rankKey d r ≤ 3 := fun r => rankKeyU_le_three d r.url
  have hperm : List.Perm (sortK (rankKey d) (A ++ B)) (A ++ B) := sortK_perm _ _
  have hndsort : ((sortK (rankKey d) (A ++ B)).map (·.url)).Nodup :=
    ((hperm.map (·.url)).nodup_iff).mpr hnd
  have hdedup : dedupByUrl (sortK (rankKey d) (A ++ B)) =
      sortK (rankKey d) (A ++ B) := dedupByUrl_of_nodup hndsort
  have hfA : ∀ q : SearchResult → Bool,
      (A.filter q).filter isLinkedInAny = A.filter q := by
    intro q
    rw [List.filter_eq_self]
    intro a ha
    exact hA a (List.mem_of_mem_filter ha)
  have hfB : ∀ q : SearchResult → Bool,
      (B.filter q).filter isLinkedInAny = [] := by
    intro q
    rw [List.filter_eq_nil_iff]
    intro b hb
    simp [hB b (List.mem_of_mem_filter hb)]
  have hgA : ∀ q : SearchResult → Bool,
      (A.filter q).filter (fun r => !isLinkedInAny r) = [] := by
    intro q
    rw [List.filter_eq_nil_iff]
    intro a ha
    simp [hA a (List.mem_of_mem_filter ha)]
  have hgB : ∀ q : SearchResult → Bool,
      (B.filter q).filter (fun r => !isLinkedInAny r) = B.filter q := by
    intro q
    rw [List.filter_eq_self]
    intro b hb
    simp [hB b (List.mem_of_mem_filter hb)]
  have hA4 := sortK_blocks (rankKey d) hk A
  rw [sortK_of_pairwise hsA] at hA4
  have hB4 := sortK_blocks (rankKey d) hk B
  rw [sortK_of_pairwise hsB] at hB4
  have hfilterA : (sortK (rankKey d) (A ++ B)).filter isLinkedInAny = A := by
    rw [sortK_blocks (rankKey d) hk (A ++ B)]
    simp only [keyBlock, List.filter_append, hfA, hfB, List.append_nil,
      List.nil_append, List.append_assoc]
    simp only [keyBlock, List.append_assoc] at hA4
    exact hA4.symm
  have hfilterB : (sortK (rankKey d) (A ++ B)).filter
      (fun r => !isLinkedInAny r) = B := by
    rw [sortK_blocks (rankKey d) hk (A ++ B)]
    simp only [keyBlock, List.filter_append, hgA, hgB, List.append_nil,
      List.nil_append, List.append_assoc]
    simp only [keyBlock, List.append_assoc] at hB4
    exact hB4.symm
  show ((dedupByUrl (sortK (rankKey d) (A ++ B))).filter isLinkedInAny ++
    (dedupByUrl (sortK (rankKey d) (A ++ B))).filter
      (fun r => !isLinkedInAny r)).take 10 = A ++ B
  rw [hdedup, hfilterA, hfilterB]
  exact List.take_of_length_le hlen

/-! ## Evidence collector lemmas -/

theorem runSearchQueries_foldl (t : GeneralAgentTools) :
    ∀ (qs : List String) (a : List SearchResult × List AgentCall),
      qs.foldl
        (fun acc q =>
          match t.search q searchOpts3 with
          | .ok rs =>
            (if rs.length > 0 then acc.1 ++ rs else acc.1,
             acc.2 ++ [AgentCall.search q 3])
          | .error _ => (acc.1, acc.2 ++ [AgentCall.search q 3])) a =
      (a.1 ++ (qs.map (searchContribution t)).flatten,
       a.2 ++ qs.map (fun q => AgentCall.search q 3)) := by
  intro qs
  induction qs with
  | nil => intro a; simp
  | cons q qs ih =>
    intro a
    rw [List.foldl_cons, ih]
    cases hsq : t.search q searchOpts3 with
    | ok rs =>
      by_cases hlen : rs.length > 0
      · simp [searchContribution, hsq, hlen, List.append_assoc]
      · have : rs = [] := List.length_eq_zero.mp (by omega)
        subst this
        simp [searchContribution, hsq]
    | error e => simp [searchContribution, hsq]

theorem runSearchQueries_eq (t : GeneralAgentTools) (qs : List String) :
    runSearchQueries t qs =
      ((qs.map (searchContribution t)).flatten,
       qs.map (fun q => AgentCall.search q 3)) := by
  unfold runSearchQueries
  rw [runSearchQueries_foldl t qs ([], [])]
  simp

theorem scrapeGo_none (t : GeneralAgentTools) :
    ∀ us, (∀ u ∈ us, scrapeOk t u = false) →
      scrapeGo t us = (none, us.map AgentCall.scrape) := by
  intro us
  induction us with
  | nil => intro _; rfl
  | cons u us ih =>
    intro h
    have hu := h u (List.mem_cons_self u us)
    have hrest := ih (fun x hx => h x (List.mem_cons_of_mem u hx))
    unfold scrapeGo
    cases hsc : t.scrape u with
    | error e => simp [hrest]
    | ok sr =>
      have hmd : (sr.success && truthy sr.markdown) = false := by
        unfold scrapeOk at hu
        rw [hsc] at hu
        exact hu
      simp [hmd, hrest]

theorem scrapeGo_first (t : GeneralAgentTools) :
    ∀ (us₁ : List String) (u : String) (us₂ : List String)
      (sr : ScrapeResult),
      (∀ u' ∈ us₁, scrapeOk t u' = false) →
      t.scrape u = Except.ok sr →
      (sr.success && truthy sr.markdown) = true →
      scrapeGo t (us₁ ++ u :: us₂) =
        (some (leadershipRecord u sr.markdown),
          us₁.map AgentCall.scrape ++ [AgentCall.scrape u]) := by
  intro us₁
  induction us₁ with
  | nil =>
    intro u us₂ sr _ hok hmd
    show scrapeGo t (u :: us₂) = _
    unfold scrapeGo
    rw [hok]
    simp [hmd]
  | cons v vs ih =>
    intro u us₂ sr hfail hok hmd
    have hv := hfail v (List.mem_cons_self v vs)
    have hrest := ih u us₂ sr
      (fun x hx => hfail x (List.mem_cons_of_mem v hx)) hok hmd
    show scrapeGo t (v :: (vs ++ u :: us₂)) = _
    unfold scrapeGo
    cases hsc : t.scrape v with
    | error e => simp [hrest]
    | ok sv =>
      have hmdv : (sv.success && truthy sv.markdown) = false := by
        unfold scrapeOk at hv
        rw [hsc] at hv
        exact hv
      simp [hmdv, hrest]

/-! ## Claim theorems -/

/-- C1: for all field sets and collaborator oracles, when neither a
company name (from `context.companyName`,
`context.discoveredData.companyName`, or
`context.emailContext.companyNameGuess`) nor a company domain
(`context.emailContext.companyDomain`) is defined, `execute` returns the
empty mapping and issues zero calls to the search, scrape and
extractStructuredData collaborators. -/
theorem C1_no_identity_no_calls (t : GeneralAgentTools)
    (fields : List EnrichmentField) :
    execute t ⟨none, none, none, none⟩ fields = ([], []) := rfl

/-- C2: whenever an error escapes the local recovery boundaries of the
pipeline (modelled by `executeTry` producing `.error`), `execute` does
not raise: the top-level catch returns the partial results mapping
assembled so far, which is empty. -/
theorem C2_fail_soft (t : GeneralAgentTools) (ctx : GeneralAgentContext)
    (fields : List EnrichmentField) (e : String)
    (h : (executeTry t ctx fields).1 = Except.error e) :
    (execute t ctx fields).1 = [] := by
  unfold execute
  rcases hx : executeTry t ctx fields with ⟨res, tr⟩
  have h' : res = Except.error e := by rw [hx] at h; exact h
  subst h'
  split
  · rename_i heq
    simp at heq
  · rename_i a tr2 heq
    show (if (!truthy (resolveCompanyName ctx) && !truthy ctx.companyDomain) = true
        then (([] : List (String × EnrichmentResult)), ([] : List AgentCall))
        else (([] : List (String × EnrichmentResult)), tr2)).1 = []
    rw [apply_ite Prod.fst]
    simp

/-- C3: for every input sequence, the ranked/merged evidence passed to
extraction has pairwise-distinct URLs (exactly one record per distinct
URL), length at most 10, and every kept record whose URL is in the
professional-network namespace precedes every kept record whose URL is
not, regardless of the input order. -/
theorem C3_ranked_evidence (d : Option String) (rs : List SearchResult) :
    ((rankEvidence d rs).map (·.url)).Nodup ∧
    (rankEvidence d rs).length ≤ 10 ∧
    (rankEvidence d rs).Pairwise
      (fun a b => isLinkedInAny b = true → isLinkedInAny a = true) :=
  ⟨rank_nodup_urls d rs, rank_len_le d rs, rank_li_first d rs⟩

/-- C4 counterexample: two records with the same URL but different
content; deduplication keeps the record at the first position but with
the second (last-occurring) record's content, so the first-occurring
record does not survive with its content as the claim states. -/
theorem C4_counterexample :
    dedupByUrl [dupRec1, dupRec2] = [dupRec2] ∧
    rankEvidence none [dupRec1, dupRec2] = [dupRec2] ∧
    dupRec1.markdown = some "m1" ∧ dupRec2.markdown = some "m2" ∧
    dupRec2 ≠ dupRec1 := by decide

/-- C4 amended: deduplication keeps exactly one record per distinct URL,
with URLs in first-occurrence order (`keysAfter []` of the URL
sequence), but the surviving record is the last record of the input with
that URL (last-wins on content), not the first. -/
theorem C4_dedup_first_position_last_content (rs : List SearchResult) :
    (dedupByUrl rs).map (·.url) = keysAfter [] (rs.map (·.url)) ∧
    ((dedupByUrl rs).map (·.url)).Nodup ∧
    ∀ r ∈ dedupByUrl rs, lastWith r.url rs = some r :=
  ⟨urls_dedupByUrl rs, urls_dedupByUrl_nodup rs,
   fun _ hr => lastWith_dedupByUrl hr⟩

/-- C4 witness: in the concrete duplicate pair, the surviving record is
the last one with that URL. -/
theorem C4_dedup_witness :
    lastWith dupRec2.url [dupRec1, dupRec2] = some dupRec2 :=
  (C4_dedup_first_position_last_content [dupRec1, dupRec2]).2.2 dupRec2
    (by decide)

/-- C5: the ranking operation (stable trust-tier sort, URL dedup,
network-first partition, truncation to 10) is idempotent: applied to its
own output — an already-ranked, deduplicated sequence of at most 10
unique-URL records — it returns that sequence unchanged. -/
theorem C5_rank_idempotent (d : Option String) (rs : List SearchResult) :
    rankEvidence d (rankEvidence d rs) = rankEvidence d rs := by
  have hnd := rank_nodup_urls d rs
  have hlen := rank_len_le d rs
  rw [rank_shape d rs] at hnd hlen ⊢
  refine rank_fixed d _ _ ?_ ?_ ?_ ?_ hnd hlen
  · intro a ha
    exact List.of_mem_filter (List.take_subset _ _ ha)
  · intro b hb
    have := List.of_mem_filter (List.take_subset _ _ hb)
    simpa [Bool.not_eq_true'] using this
  · exact List.Pairwise.sublist (List.take_sublist _ _)
      (List.Pairwise.filter _ (dedup_sortK_pairwise d rs))
  · exact List.Pairwise.sublist (List.take_sublist _ _)
      (List.Pairwise.filter _ (dedup_sortK_pairwise d rs))

/-- C2 witness: with collaborators whose extraction engine throws, the
pipeline reaches the extraction call, the error escapes `executeTry`,
and `execute` still returns the empty mapping. -/
theorem C2_fail_soft_witness :
    (execute toolsC2 ⟨some "Acme", none, none, none⟩
      [⟨"ceo", "Chief Executive Officer"⟩]).1 = [] :=
  C2_fail_soft toolsC2 ⟨some "Acme", none, none, none⟩
    [⟨"ceo", "Chief Executive Officer"⟩] "boom" (by rfl)

/-- C6 scenario: for fields = [ceo], companyName = "Acme Corp",
companyDomain = "acme.com" and anchor URL
"https://linkedin.com/company/acme-corp", the synthesized query list is
exactly as below: the first two entries are `site:linkedin.com/in`
queries scoped to "acme corp" and "Acme Corp" with the title CEO, a
domain-scoped about-us query is present, and the final last-resort query
contains the hardcoded literal year 2025 — not the current year (it does
not contain "2026"). -/
theorem C6_scenario_queries :
    buildLinkedInFirstQueries [⟨"ceo", "Chief Executive Officer"⟩]
      (some "Acme Corp") (some "acme.com")
      (some "https://linkedin.com/company/acme-corp") =
      ["site:linkedin.com/in \"acme corp\" CEO",
       "site:linkedin.com/in \"Acme Corp\" CEO",
       "site:linkedin.com/in \"CEO\" \"Acme Corp\" current",
       "site:linkedin.com/in \"Acme Corp\" leadership team",
       "site:linkedin.com/in \"Acme Corp\" executives",
       "site:acme.com team leadership about executives",
       "site:acme.com about-us",
       "\"Acme Corp\" CEO 2025"] ∧
    hasSubstr "\"Acme Corp\" CEO 2025" "2025" = true ∧
    hasSubstr "\"Acme Corp\" CEO 2025" "2026" = false := by decide

/-- C7 counterexample: for the field (name "head", description
"the ceo") the pattern "ceo" occurs (case-insensitively) in the
description and no earlier rule matches, so under the claim the CEO rule
would fire; but `extractTitle` checks the description only for the
spelled-out phrase "chief executive" and returns the field name
"head". -/
theorem C7_counterexample :
    hasSubstr (lowerStr (EnrichmentField.mk "head" "the ceo").description)
      "ceo" = true ∧
    extractTitle ⟨"head", "the ceo"⟩ = "head" ∧
    extractTitle ⟨"head", "the ceo"⟩ ≠ "CEO" := by decide

/-- C7 amended: `extractTitle` evaluates the ordered rule table
CEO, CTO, CFO, COO, CMO, CPO, founder, president with first-match-wins,
where each chief-officer rule fires when its abbreviation occurs in the
lower-cased name or its spelled-out phrase occurs in the lower-cased
description, the founder and president rules fire on the name only, and
the original field name is returned when no rule fires. -/
theorem C7_rule_table (f : EnrichmentField) :
    extractTitle f = evalTitleRules f := by
  unfold extractTitle evalTitleRules titleRules
  dsimp only [List.find?, ruleFires]
  repeat' split
  all_goals first | rfl | simp_all

/-- C8 counterexample: a field with empty name and empty description is
mapped to the empty string, refuting "returns a non-empty string for any
Field (including one whose name is the empty string)". -/
theorem C8_counterexample : extractTitle ⟨"", ""⟩ = "" := by decide

/-- C8 amended: `extractTitle` is total and deterministic, returning
either a canonical label or the original field name; the result is
non-empty whenever the field name is non-empty (an empty-name field with
no matching rule yields the empty string). -/
theorem C8_total_label_or_name (f : EnrichmentField) :
    (extractTitle f = f.name ∨
      extractTitle f ∈ (["CEO", "CTO", "CFO", "COO", "CMO", "CPO",
        "founder", "president"] : List String)) ∧
    (f.name ≠ "" → extractTitle f ≠ "") := by
  unfold extractTitle
  dsimp only
  split_ifs <;>
    first
      | exact ⟨Or.inl rfl, fun h => h⟩
      | exact ⟨Or.inr (by decide), fun _ => by decide⟩

/-- C8 witness: a non-empty-name field with no matching rule yields its
own (non-empty) name. -/
theorem C8_total_witness :
    extractTitle ⟨"revenue", "annual revenue"⟩ ≠ "" :=
  (C8_total_label_or_name ⟨"revenue", "annual revenue"⟩).2 (by decide)

/-- C9: the Evidence Collector never aborts on a per-item failure:
(1) a query whose search call fails contributes no records while the
remaining queries still contribute; (2) the three direct company-page
fetches are attempted in order, stopping at the first scrape that
succeeds with truthy markdown, which is appended as the record titled
"Company Leadership Page"; (3) when every fetch fails, the collector
returns exactly the search-derived records. -/
theorem C9_collector :
    (∀ (t : GeneralAgentTools) (q e : String) (qs₁ qs₂ : List String),
      t.search q searchOpts3 = Except.error e →
      (runSearchQueries t (qs₁ ++ q :: qs₂)).1 =
        (runSearchQueries t (qs₁ ++ qs₂)).1) ∧
    (∀ (t : GeneralAgentTools) (dd : String) (us₁ : List String)
        (u : String) (us₂ : List String) (sr : ScrapeResult),
      leadershipUrls dd = us₁ ++ u :: us₂ →
      (∀ u' ∈ us₁, scrapeOk t u' = false) →
      t.scrape u = Except.ok sr →
      (sr.success && truthy sr.markdown) = true →
      scrapeCompanyPages t dd =
        (some (leadershipRecord u sr.markdown),
          us₁.map AgentCall.scrape ++ [AgentCall.scrape u])) ∧
    (∀ (t : GeneralAgentTools) (qs : List String) (dd : String)
        (fields : List EnrichmentField),
      (∀ u ∈ leadershipUrls dd, scrapeOk t u = false) →
      (collectEvidence t qs (some dd) fields).1 =
        (runSearchQueries t qs).1) := by
  refine ⟨?_, ?_, ?_⟩
  · intro t q e qs₁ qs₂ h
    rw [runSearchQueries_eq, runSearchQueries_eq]
    simp [searchContribution, h]
  · intro t dd us₁ u us₂ sr hurls hfail hok hmd
    unfold scrapeCompanyPages
    rw [hurls]
    exact scrapeGo_first t us₁ u us₂ sr hfail hok hmd
  · intro t qs dd fields hall
    unfold collectEvidence
    cases hg : (truthy (some dd) && hasExecutiveFields fields) with
    | false => simp [hg]
    | true =>
      have hnone : scrapeCompanyPages t (optStr (some dd)) =
          (none, (leadershipUrls dd).map AgentCall.scrape) :=
        scrapeGo_none t (leadershipUrls dd) hall
      simp [hg, hnone]

/-- C9 witness: with concrete collaborators, a failing query "bad"
contributes nothing; the `/about` fetch fails and the `/team` fetch
succeeds and stops the loop (the `/leadership` fetch is never issued);
and with all-failing scrapes the collector yields exactly the
search-derived records. -/
theorem C9_collector_witness :
    ((runSearchQueries toolsC9 ["good", "bad", "good2"]).1 =
      (runSearchQueries toolsC9 ["good", "good2"]).1) ∧
    (scrapeCompanyPages toolsC9 "acme.com" =
      (some (leadershipRecord "https://acme.com/team" (some "md")),
        [AgentCall.scrape "https://acme.com/about",
         AgentCall.scrape "https://acme.com/team"])) ∧
    ((collectEvidence toolsC9b ["q"] (some "acme.com")
      [⟨"ceo", "Chief Executive Officer"⟩]).1 =
        (runSearchQueries toolsC9b ["q"]).1) := by
  refine ⟨?_, ?_, ?_⟩
  · exact C9_collector.1 toolsC9 "bad" "fail" ["good"] ["good2"] rfl
  · exact C9_collector.2.1 toolsC9 "acme.com" ["https://acme.com/about"]
      "https://acme.com/team" ["https://acme.com/leadership"]
      ⟨true, some "md", none⟩ (by decide) (by decide) rfl (by decide)
  · exact C9_collector.2.2 toolsC9b ["q"] "acme.com"
      [⟨"ceo", "Chief Executive Officer"⟩] (by decide)

/-- C10: for an anchor URL that does not parse as an absolute URL, or
whose path (split on `/`, empty segments dropped) does not start with
the segment `company` followed by a further segment,
`extractLinkedInCompanyName` returns the empty string; the first
anchor-tier synthesized query then quotes that empty derived name
(`site:linkedin.com/in "" ...`) rather than being omitted. -/
theorem C10_anchor_empty_name (u : String) (fields : List EnrichmentField)
    (name domain : Option String) :
    (parseURL u = none → extractLinkedInCompanyName u = "") ∧
    (∀ pn, parseURL u = some pn →
      (∀ p1 rest, (splitOnChar '/' pn.data).filter (fun p => p.length > 0) ≠
        ("company".data :: p1 :: rest)) →
      extractLinkedInCompanyName u = "") ∧
    (u ≠ "" → (executiveFields fields).length > 0 →
      extractLinkedInCompanyName u = "" →
      (buildLinkedInFirstQueries fields name domain (some u)).head? =
        some ("site:linkedin.com/in \"\" " ++
          String.intercalate " OR " (execTitles fields))) := by
  refine ⟨?_, ?_, ?_⟩
  · intro h
    unfold extractLinkedInCompanyName
    rw [h]
  · intro pn hpn hne
    unfold extractLinkedInCompanyName
    rw [hpn]
    dsimp only
    split
    · rename_i p0 p1 tail heq
      by_cases hc : p0 = "company".data
      · exact absurd (hc ▸ heq) (hne p1 tail)
      · simp [hc]
    · rfl
  · intro hne hex hemp
    have hie : u.isEmpty = false := by
      by_cases hie : u.isEmpty = true
      · exact absurd ((String.isEmpty_iff u).mp hie) hne
      · simpa using hie
    have htr : truthy (some u) = true := by simp [truthy, hie]
    unfold buildLinkedInFirstQueries
    dsimp only
    rw [if_pos hex, if_pos htr]
    show some ("site:linkedin.com/in \"" ++ extractLinkedInCompanyName u ++
      "\" " ++ String.intercalate " OR " (execTitles fields)) =
      some ("site:linkedin.com/in \"\" " ++
        String.intercalate " OR " (execTitles fields))
    rw [hemp]
    rw [show ("site:linkedin.com/in \"" ++ "" ++ "\" " : String) =
      "site:linkedin.com/in \"\" " from by decide]

/-- C10 witness: at the unparseable anchor "notaurl" the derived name is
empty and the first synthesized query quotes it; at the parseable
non-company URL "https://linkedin.com/in/someone" the derived name is
also empty. -/
theorem C10_anchor_witness :
    extractLinkedInCompanyName "notaurl" = "" ∧
    extractLinkedInCompanyName "https://linkedin.com/in/someone" = "" ∧
    (buildLinkedInFirstQueries [⟨"ceo", "Chief Executive Officer"⟩]
      (some "Acme Corp") none (some "notaurl")).head? =
      some ("site:linkedin.com/in \"\" " ++
        String.intercalate " OR "
          (execTitles [⟨"ceo", "Chief Executive Officer"⟩])) := by
  refine ⟨?_, ?_, ?_⟩
  · exact (C10_anchor_empty_name "notaurl" [] none none).1 (by decide)
  · refine (C10_anchor_empty_name "https://linkedin.com/in/someone" [] none
      none).2.1 "/in/someone" (by decide) ?_
    intro p1 rest h
    have hhead := (List.cons.inj h).1
    have hdiff : ("in".data : List Char) ≠ "company".data := by decide
    exact hdiff hhead
  · exact (C10_anchor_empty_name "notaurl"
      [⟨"ceo", "Chief Executive Officer"⟩] (some "Acme Corp") none).2.2
      (by decide) (by decide)
      ((C10_anchor_empty_name "notaurl" [] none none).1 (by decide))

end GeneralAgent
